import Mathlib

/-!
Verification of the automancer runtime core: the state-manager data model
(`pr1.state`, `pr1_devices.runner`), the block-program mode machines
(`pr1.fiber.segment`, `pr1_state.parser`), the `BlockState` merge algebra
(`pr1.fiber.parser`) and the value-node write path
(`pr1.devices.nodes.value`), shallowly embedded as executable Lean
definitions, with theorems checking the specified properties.
-/

namespace Automancer

/-- Program handle tree node (`pr1.fiber.master2.ProgramHandle`); the chain of
`_parent` references ends at the master, which is not a `ProgramHandle`. -/
inductive Handle where
  | master
  | node (id : Nat) (parent : Handle)
deriving DecidableEq, Repr

/-- Identifying path of a handle (the ids from the handle up to the master). -/
def Handle.path : Handle → List Nat
  | .master => []
  | .node id p => id :: p.path

/-- `pr1.state.StateProgramItem`, represented by its chain of `parent`
references. `pid` is the identity of the Python object (the path of the
handle the item was created for, unique per item); the `depth` and `parent`
fields of the source are the derived functions below, matching how
`GlobalStateManager.add` initializes them. The mutable fields (`applied`,
settle event, location entries) live in `ItemState`. -/
inductive SPItem where
  | root (pid : List Nat)
  | child (pid : List Nat) (parent : SPItem)
deriving DecidableEq, Repr

instance : Inhabited SPItem := ⟨.root []⟩

/-- `StateProgramItem.depth`: 0 for an item with no parent item. -/
def SPItem.depth : SPItem → Nat
  | .root _ => 0
  | .child _ p => p.depth + 1

/-- `StateProgramItem.ancestors()`: yields the item itself, then its parent,
and so on up to the root item. -/
def SPItem.ancestors : SPItem → List SPItem
  | .root pid => [.root pid]
  | .child pid p => .child pid p :: p.ancestors

/-- The proper ancestors of an item (everything `ancestors()` yields after
the item itself). This is the specification-side notion of "`a` is a proper
ancestor of `b`": `a ∈ b.properAncestors`. -/
def SPItem.properAncestors : SPItem → List SPItem
  | .root _ => []
  | .child _ p => p.ancestors

/-- `StateProgramItem.__lt__` (state.py lines 89–91): `self < other` iff
`other.depth - self.depth` is positive and the element of
`other.ancestors()` at that index is `self` (the source compares with `is`;
object identity corresponds to equality of our chain values). -/
def SPItem.pylt (self other : SPItem) : Bool :=
  let depthDiff : Int := (other.depth : Int) - (self.depth : Int)
  decide (0 < depthDiff) && decide (other.ancestors[depthDiff.toNat]? = some self)

/-- `StateProgramItem.__eq__` (state.py line 94): derived from `__lt__`. -/
def SPItem.pyeq (self other : SPItem) : Bool :=
  !(self.pylt other) && !(other.pylt self)

theorem SPItem.ancestors_eq (i : SPItem) : i.ancestors = i :: i.properAncestors := by
  cases i <;> rfl

theorem SPItem.mem_ancestors_getElem {a p : SPItem} (h : a ∈ p.ancestors) :
    a.depth ≤ p.depth ∧ p.ancestors[p.depth - a.depth]? = some a := by
  induction p with
  | root pid =>
    simp only [SPItem.ancestors, List.mem_singleton] at h
    subst h
    simp [SPItem.ancestors, SPItem.depth]
  | child pid q ih =>
    simp only [SPItem.ancestors, List.mem_cons] at h
    rcases h with h | h
    · subst h
      simp [SPItem.ancestors, SPItem.depth]
    · obtain ⟨hle, hget⟩ := ih h
      refine ⟨?_, ?_⟩
      · simp only [SPItem.depth]; omega
      · have : SPItem.depth (.child pid q) - a.depth = (q.depth - a.depth) + 1 := by
          simp only [SPItem.depth]; omega
        rw [this]
        simpa [SPItem.ancestors] using hget

theorem SPItem.getElem_ancestors_depth {p a : SPItem} {k : Nat}
    (h : p.ancestors[k]? = some a) : a.depth + k = p.depth := by
  induction p generalizing k with
  | root pid =>
    cases k with
    | zero =>
      simp [SPItem.ancestors] at h
      subst h; simp [SPItem.depth]
    | succ n => simp [SPItem.ancestors] at h
  | child pid q ih =>
    cases k with
    | zero =>
      simp [SPItem.ancestors] at h
      subst h; simp
    | succ n =>
      simp only [SPItem.ancestors, List.getElem?_cons_succ] at h
      have := ih h
      simp only [SPItem.depth]; omega

theorem SPItem.getElem_mem_ancestors {p a : SPItem} {k : Nat}
    (h : p.ancestors[k]? = some a) : a ∈ p.ancestors :=
  List.getElem?_mem h

/-- Characterization of `__lt__`: `a < b` holds exactly when `a` is a proper
ancestor of `b`. -/
theorem SPItem.pylt_iff_properAncestor (a b : SPItem) :
    a.pylt b = true ↔ a ∈ b.properAncestors := by
  constructor
  · intro h
    simp only [SPItem.pylt, Bool.and_eq_true, decide_eq_true_eq] at h
    obtain ⟨hpos, hget⟩ := h
    have hdep := SPItem.getElem_ancestors_depth hget
    have hk : ((b.depth : Int) - (a.depth : Int)).toNat = b.depth - a.depth := by omega
    rw [hk] at hget
    have hkpos : 0 < b.depth - a.depth := by omega
    rw [SPItem.ancestors_eq] at hget
    rcases Nat.exists_eq_add_of_lt hkpos with ⟨m, hm⟩
    rw [show b.depth - a.depth = m + 1 by omega] at hget
    simp only [List.getElem?_cons_succ] at hget
    exact List.getElem?_mem hget
  · intro h
    have hb : ∃ pid q, b = SPItem.child pid q ∧ a ∈ q.ancestors := by
      cases b with
      | root pid => simp [SPItem.properAncestors] at h
      | child pid q => exact ⟨pid, q, rfl, h⟩
    obtain ⟨pid, q, rfl, hq⟩ := hb
    obtain ⟨hle, hget⟩ := SPItem.mem_ancestors_getElem hq
    simp only [SPItem.pylt, Bool.and_eq_true, decide_eq_true_eq]
    constructor
    · simp only [SPItem.depth]; omega
    · have hk : (((SPItem.child pid q).depth : Int) - (a.depth : Int)).toNat
          = (q.depth - a.depth) + 1 := by
        simp only [SPItem.depth]; omega
      rw [hk]
      simpa [SPItem.ancestors] using hget

/-- C10: `StateProgramItem.__lt__` holds exactly on proper ancestors; the
derived `__eq__` therefore declares any two items in disjoint subtrees
(neither an ancestor of the other) equal — in particular two distinct
siblings compare equal. (This comparison is the `key` used by
`bisect.insort_left` in `DevicesStateManager.add`, i.e. `devicesAdd` below.) -/
theorem C10_item_lt_iff_proper_ancestor :
    (∀ a b : SPItem, a.pylt b = true ↔ a ∈ b.properAncestors) ∧
    (∀ a b : SPItem, a ∉ b.properAncestors → b ∉ a.properAncestors →
      a.pyeq b = true) ∧
    (SPItem.pyeq (.child [0, 0] (.root [])) (.child [0, 1] (.root [])) = true ∧
      (SPItem.child [0, 0] (.root []) : SPItem) ≠ SPItem.child [0, 1] (.root [])) := by
  refine ⟨SPItem.pylt_iff_properAncestor, ?_, by decide, by decide⟩
  intro a b hab hba
  simp only [SPItem.pyeq, Bool.and_eq_true, Bool.not_eq_true']
  constructor
  · rw [Bool.eq_false_iff]
    intro h
    exact hab ((SPItem.pylt_iff_properAncestor a b).mp h)
  · rw [Bool.eq_false_iff]
    intro h
    exact hba ((SPItem.pylt_iff_properAncestor b a).mp h)

/-- Witness for C10 at concrete items: the root is `<` its grandchild, and
two distinct siblings compare equal. -/
theorem C10_item_lt_iff_proper_ancestor_witness :
    (SPItem.pylt (.root [0]) (.child [2, 1, 0] (.child [1, 0] (.root [0]))) = true) ∧
    SPItem.pyeq (.child [1, 0] (.root [0])) (.child [2, 0] (.root [0])) = true := by
  refine ⟨?_, ?_⟩
  · exact (C10_item_lt_iff_proper_ancestor.1 _ _).mpr (by decide)
  · exact C10_item_lt_iff_proper_ancestor.2.1 _ _ (by decide) (by decide)

/-! ## `BlockState` merge algebra (`pr1.fiber.parser`)

A `BlockState` is a dict from parser namespaces to `BlockUnitState`-or-null;
every `BlockState` built by `FiberParser.parse_block` has the same key set
(the registered parser namespaces), so the shallow embedding is a total map
on a namespace type `ν`. -/

/-- `BlockUnitState.__or__` (parser.py line 33): returns `other`. -/
def blockUnitOr {υ : Type _} (_self other : υ) : υ := other

/-- `BlockState.__ror__` (parser.py lines 49–65): `other | self`, where
`other` may be `None`; for each namespace, a null entry on one side falls
back to the other side, and when both are present the result is
`other_value | value` (which `BlockUnitState.__or__` resolves to `value`,
i.e. the right operand of the original `|`). -/
def blockStateRor {ν υ : Type _} (self : ν → Option υ) (other : Option (ν → Option υ)) :
    ν → Option υ :=
  match other with
  | none => self
  | some o => fun k =>
    match self k, o k with
    | none, otherValue => otherValue
    | some v, none => some v
    | some v, some otherValue => some (blockUnitOr otherValue v)

/-- `BlockState.__or__` (parser.py lines 46–47): `a | b = b.__ror__(a)`. -/
def blockStateOr {ν υ : Type _} (a b : ν → Option υ) : ν → Option υ :=
  blockStateRor b (some a)

/-- The all-null `BlockState`. -/
def blockStateNull {ν υ : Type _} : ν → Option υ := fun _ => none

theorem blockStateOr_apply {ν υ : Type _} (a b : ν → Option υ) (k : ν) :
    blockStateOr a b k = ((b k).rec (a k) (fun v => some v)) := by
  simp only [blockStateOr, blockStateRor, blockUnitOr]
  cases b k <;> cases a k <;> rfl

/-- C9: merge-override on `BlockState`: a state whose entries are all null is
a left and right identity, `|` is associative, and per namespace the right
operand's non-null entry wins while null entries fall back to the left. -/
theorem C9_blockstate_merge_override {ν υ : Type _} :
    (∀ a n : ν → Option υ, (∀ k, n k = none) →
      blockStateOr a n = a ∧ blockStateOr n a = a) ∧
    (∀ a b c : ν → Option υ,
      blockStateOr (blockStateOr a b) c = blockStateOr a (blockStateOr b c)) ∧
    (∀ (a b : ν → Option υ) (k : ν),
      (∀ v, b k = some v → blockStateOr a b k = some v) ∧
      (b k = none → blockStateOr a b k = a k)) := by
  refine ⟨?_, ?_, ?_⟩
  · intro a n hn
    constructor
    · funext k
      simp only [blockStateOr, blockStateRor, blockUnitOr, hn k]
    · funext k
      simp only [blockStateOr, blockStateRor, blockUnitOr, hn k]
      cases a k <;> rfl
  · intro a b c
    funext k
    simp only [blockStateOr, blockStateRor, blockUnitOr]
    cases a k <;> cases b k <;> cases c k <;> rfl
  · intro a b k
    constructor
    · intro v hv
      simp only [blockStateOr, blockStateRor, blockUnitOr, hv]
      try (cases a k <;> rfl)
    · intro hv
      simp only [blockStateOr, blockStateRor, blockUnitOr, hv]

/-- Witness for C9 at a concrete namespace type and unit-state type. -/
theorem C9_blockstate_merge_override_witness :
    blockStateOr (fun b : Bool => if b then some 1 else none)
      (blockStateNull (υ := Nat)) = (fun b : Bool => if b then some 1 else none) ∧
    blockStateOr (fun b : Bool => if b then some (2 : Nat) else none)
      (fun _ : Bool => some 3) true = some 3 :=
  ⟨(C9_blockstate_merge_override.1 _ _ (fun _ => rfl)).1,
   (C9_blockstate_merge_override.2.2 _ _ true).1 3 rfl⟩

/-! ## `ValueNode.write` and `_configure` (`pr1.devices.nodes.value`) -/

/-- Values flowing through `ValueNode.write`: the Python `None` (tested by
`value is not None`), the `Null` sentinel (`NullType()`), or an actual
value. -/
inductive PyVal where
  | pynone
  | null
  | val (n : Int)
deriving DecidableEq, Repr

/-- The fields of `ValueNode` this development needs: the remembered
`_target_value` (initialized to `Null`) and the connection flag. -/
structure VNode where
  targetValue : PyVal := .null
  connected : Bool
deriving DecidableEq, Repr

/-- Outcome of one `ValueNode.write` call. `raisedUnavailable` records
whether `NodeUnavailableError` escaped the call; `wroteDriver` whether the
underlying `self._write(value)` completed. -/
structure WriteResult where
  node : VNode
  raisedUnavailable : Bool
  wroteDriver : Bool
deriving DecidableEq, Repr

/-- `ValueNode.write` (value.py lines 118–127). `driverUnavailable` is
whether the driver-level `_write` raises `NodeUnavailableError`; the
`except NodeUnavailableError: pass` clause swallows that error, and nothing
is attempted at all while disconnected, so `write` itself never raises it. -/
def vnodeWrite (node : VNode) (value : PyVal) (driverUnavailable : Bool) : WriteResult :=
  let node' := { node with targetValue := value }
  if value ≠ PyVal.pynone then
    if node.connected then
      if driverUnavailable then
        { node := node', raisedUnavailable := false, wroteDriver := false }
      else
        { node := node', raisedUnavailable := false, wroteDriver := true }
    else
      { node := node', raisedUnavailable := false, wroteDriver := false }
  else
    { node := node', raisedUnavailable := false, wroteDriver := false }

/-- `ValueNode._configure` (value.py lines 72–79), run by the owner when the
node (re)connects: re-read (a `NotImplementedError` is ignored), and when
`_target_reached()` is false, call `write` again with the remembered
`_target_value`. The last component is the value handed to `write`, if any. -/
def vnodeConfigure (node : VNode) (targetReached : Bool) (driverUnavailable : Bool) :
    VNode × Bool × Option PyVal :=
  if targetReached then (node, false, none)
  else
    let r := vnodeWrite node node.targetValue driverUnavailable
    (r.node, r.wroteDriver, some node.targetValue)

/-- C8 counterexample: writing value 3 to a disconnected writable node does
not raise `NodeUnavailable` — the call returns normally (with the target
remembered), contradicting the claim that the call fails with
`NodeUnavailable` when disconnected; the same happens when the driver raises
`NodeUnavailableError` during the write of a connected node. -/
theorem C8_write_counterexample :
    vnodeWrite { targetValue := .null, connected := false } (.val 3) false
      = { node := { targetValue := .val 3, connected := false },
          raisedUnavailable := false, wroteDriver := false } ∧
    (vnodeWrite { targetValue := .null, connected := true } (.val 3) true).raisedUnavailable
      = false := by
  decide

/-- C8 (amended): `write(v)` always records `v` as the node's target; when
the node is disconnected, or the driver raises `NodeUnavailableError` during
the write, the error is swallowed and the call returns normally without
raising; the driver-level write happens exactly when the node is connected
and the driver does not fail (and `v` is not Python `None`); on
reconnection, `_configure` writes the remembered target again whenever the
target is not reached. -/
theorem C8_write_remembers_target :
    (∀ (node : VNode) (v : PyVal) (d : Bool),
      (vnodeWrite node v d).node.targetValue = v ∧
      (vnodeWrite node v d).raisedUnavailable = false ∧
      (vnodeWrite node v d).wroteDriver
        = (decide (v ≠ PyVal.pynone) && node.connected && !d)) ∧
    (∀ (node : VNode) (d : Bool),
      vnodeConfigure node false d
        = ((vnodeWrite node node.targetValue d).node,
           (vnodeWrite node node.targetValue d).wroteDriver,
           some node.targetValue)) := by
  constructor
  · intro node v d
    simp only [vnodeWrite]
    by_cases hv : v = PyVal.pynone
    · subst hv
      simp
    · simp only [hv, ne_eq, not_false_eq_true, if_true, decide_not, ite_not]
      cases hn : node.connected <;> cases d <;> simp [hv]
  · intro node d
    rfl

/-! ## Segment program mode machine (`pr1.fiber.segment`) -/

/-- `SegmentProgramMode` (segment.py lines 57–64). -/
inductive SegMode where
  | halted
  | halting
  | normal
  | pausingProcess
  | pausingState
  | paused
deriving DecidableEq, Fintype, Repr

/-- Observable steps of `SegmentProgram.run`'s event loop: a mode assignment,
the `await state_instance.suspend()` call, or a
`state_instance.apply(resume=...)` call. -/
inductive SegAction where
  | enterMode (m : SegMode)
  | suspendState
  | applyState (resume : Bool)
deriving DecidableEq, Repr

/-- `SegmentProgram.busy` (segment.py lines 100–101). -/
def segmentBusy (m : SegMode) : Bool :=
  m = SegMode.pausingProcess ∨ m = SegMode.pausingState

/-- `SegmentProgram.pause` (segment.py lines 129–133): asserts not busy and
mode `Normal`, then moves to `PausingProcess` (and asks the process to
pause). `none` models the failed assertion. -/
def segmentPause (m : SegMode) : Option SegMode :=
  if ¬ segmentBusy m ∧ m = SegMode.normal then some SegMode.pausingProcess else none

/-- `SegmentProgram.halt` (segment.py lines 114–117): asserts not busy and
mode `Normal` or `Paused`, then moves to `Halting`. -/
def segmentHalt (m : SegMode) : Option SegMode :=
  if ¬ segmentBusy m ∧ (m = SegMode.normal ∨ m = SegMode.paused) then
    some SegMode.halting
  else none

/-- One iteration of the `async for` loop in `SegmentProgram.run`
(segment.py lines 159–184): given the mode at the loop head and the event's
`stopped` flag, the four `if` statements run in order; the result is the
mode at the end of the iteration and the actions performed, in order. -/
def segmentStep (m : SegMode) (stopped : Bool) : SegMode × List SegAction :=
  let s1 := if m = SegMode.pausingProcess ∧ stopped then
      (SegMode.pausingState, [SegAction.enterMode .pausingState, SegAction.suspendState])
    else (m, [])
  let s2 := if s1.1 = SegMode.halting ∧ stopped then
      (SegMode.halted, s1.2 ++ [SegAction.enterMode .halted])
    else s1
  let s3 := if s2.1 = SegMode.pausingState then
      (SegMode.paused, s2.2 ++ [SegAction.enterMode .paused])
    else s2
  if s3.1 = SegMode.paused ∧ ¬ stopped then
    (SegMode.normal, s3.2 ++ [SegAction.enterMode .normal, SegAction.applyState true])
  else s3

/-- The modes that can hold at the head of the loop in `SegmentProgram.run`:
`Normal` initially and after a resume iteration, `PausingProcess` after
`pause()`, `Halting` after `halt()`, `Paused`/`Halted` at the end of the
respective iterations. `PausingState` exists only inside an iteration. -/
def segLoopHeadModes : List SegMode :=
  [.normal, .pausingProcess, .halting, .paused, .halted]

/-- C5: from `Normal`, `pause()` (and only `pause()` from exactly `Normal`)
sets `PausingProcess`; on the first event with `stopped` true the iteration
goes `PausingState` (suspending the state instance) and then `Paused`, in
that order; and from every mode reachable at the loop head, entering
`Paused` anew is possible only through that `PausingProcess`-with-`stopped`
iteration; the loop-head modes are closed under the iteration step. -/
theorem C5_segment_pause_order :
    (∀ m, segmentPause m = some SegMode.pausingProcess ↔ m = SegMode.normal) ∧
    (segmentStep SegMode.pausingProcess true
      = (SegMode.paused,
         [SegAction.enterMode .pausingState, SegAction.suspendState,
          SegAction.enterMode .paused])) ∧
    (∀ m s, m ∈ segLoopHeadModes → (segmentStep m s).1 = SegMode.paused →
      m ≠ SegMode.paused → m = SegMode.pausingProcess ∧ s = true ∧
      (segmentStep m s).2
        = [SegAction.enterMode .pausingState, SegAction.suspendState,
           SegAction.enterMode .paused]) ∧
    (∀ m s, m ∈ segLoopHeadModes → (segmentStep m s).1 ∈ segLoopHeadModes) := by
  refine ⟨?_, by decide, ?_, ?_⟩ <;> decide

/-- Witness for C5: the pause iteration at concrete inputs. -/
theorem C5_segment_pause_order_witness :
    segmentPause SegMode.normal = some SegMode.pausingProcess ∧
    (segmentStep SegMode.pausingProcess true).1 = SegMode.paused ∧
    (segmentStep SegMode.normal false).1 ∈ segLoopHeadModes :=
  ⟨(C5_segment_pause_order.1 SegMode.normal).mpr rfl,
   by rw [C5_segment_pause_order.2.1],
   C5_segment_pause_order.2.2.2 SegMode.normal false (by decide)⟩

/-! ## State program mode machine (`pr1_state.parser`) -/

/-- `StateProgramMode` (pr1_state/parser.py lines 75–87). -/
inductive SPMode where
  | applyingState
  | haltingChildThenState
  | haltingChildWhilePaused
  | haltingState
  | normal
  | paused
  | pausingChild
  | pausingState
  | resuming
  | resumingState
  | suspendingState
  | terminated
deriving DecidableEq, Fintype, Repr

/-- Observable steps of a `StateProgram`: mode assignments,
`state_manager.suspend`/`remove`/`apply` calls, `resume_parent`, and
`handle.send(...)` events. -/
inductive SPAction where
  | enterMode (m : SPMode)
  | suspendCall
  | removeCall
  | applyCall (terminal : Bool)
  | resumeParentCall
  | sendEvent
deriving DecidableEq, Repr

/-- `StateProgram.halt` (pr1_state/parser.py lines 151–162): `Normal ↦
HaltingChildThenState`, `Paused ↦ HaltingChildWhilePaused`, anything else is
an `AssertionError` (`none`); then the program sends its location and halts
the child. -/
def stateHalt (m : SPMode) : Option SPMode :=
  match m with
  | .normal => some .haltingChildThenState
  | .paused => some .haltingChildWhilePaused
  | _ => none

/-- The tail of `StateProgram.run` (pr1_state/parser.py lines 245–252),
entered when `self._child_program.run(stack)` returns, as a function of the
mode at that point: unless the mode is `HaltingChildWhilePaused` or
`Paused`, enter `SuspendingState` and await `state_manager.suspend`; in
every case await `state_manager.remove`, then enter `Terminated`. -/
def stateRunTail (m : SPMode) : List SPAction :=
  (if m ≠ SPMode.haltingChildWhilePaused ∧ m ≠ SPMode.paused then
    [SPAction.enterMode .suspendingState, SPAction.suspendCall]
  else []) ++ [SPAction.removeCall, SPAction.enterMode .terminated, SPAction.sendEvent]

/-- C4: when the child returns, `state_manager.suspend` is awaited (inside
`SuspendingState`) exactly when the mode is neither
`HaltingChildWhilePaused` nor `Paused`; `state_manager.remove` always runs
and the program ends `Terminated`. In particular a halt issued while
`Paused` puts the program in `HaltingChildWhilePaused`, and from there (or
from `Paused`) `SuspendingState` is never entered. -/
theorem C4_state_run_tail :
    (∀ m, (SPAction.suspendCall ∈ stateRunTail m
        ↔ (m ≠ SPMode.haltingChildWhilePaused ∧ m ≠ SPMode.paused)) ∧
      (SPAction.enterMode .suspendingState ∈ stateRunTail m
        ↔ (m ≠ SPMode.haltingChildWhilePaused ∧ m ≠ SPMode.paused)) ∧
      SPAction.removeCall ∈ stateRunTail m ∧
      (stateRunTail m).reverse.head? = some SPAction.sendEvent ∧
      SPAction.enterMode .terminated ∈ stateRunTail m) ∧
    stateHalt SPMode.paused = some SPMode.haltingChildWhilePaused ∧
    stateRunTail SPMode.haltingChildWhilePaused
      = [SPAction.removeCall, SPAction.enterMode .terminated, SPAction.sendEvent] := by
  refine ⟨?_, by decide, by decide⟩
  decide

/-- Witness for C4 at a concrete mode. -/
theorem C4_state_run_tail_witness :
    SPAction.suspendCall ∈ stateRunTail SPMode.normal ∧
    SPAction.suspendCall ∉ stateRunTail SPMode.haltingChildWhilePaused :=
  ⟨(C4_state_run_tail.1 SPMode.normal).1.mpr (by decide),
   fun h => (((C4_state_run_tail.1 SPMode.haltingChildWhilePaused).1.mp h).1 rfl)⟩

/-- Result of `StateProgram.resume` (pr1_state/parser.py lines 184–210). -/
inductive ResumeOutcome where
  | looseNoop
  | assertFailed
  | parentFailed (finalMode : SPMode) (trace : List SPAction)
  | completed (finalMode : SPMode) (trace : List SPAction)
deriving DecidableEq, Repr

/-- `StateProgram.resume`: outside `Paused`, a loose resume returns and a
non-loose one is an `AssertionError`. From `Paused`: enter `Resuming`, send,
await `resume_parent` (`parentOk`); on failure restore `Paused` and
re-raise. Then, when `self._block.settle or (not loose)`, call
`state_manager.apply(terminal=not loose)` — the coroutine it returns is
always truthy, so the program enters `ResumingState` and awaits it. Finally
enter `Normal` and send. -/
def stateResume (m : SPMode) (loose parentOk settle : Bool) : ResumeOutcome :=
  if m ≠ SPMode.paused then
    if loose then .looseNoop else .assertFailed
  else
    let t0 := [SPAction.enterMode .resuming, SPAction.sendEvent, SPAction.resumeParentCall]
    if ¬ parentOk then
      .parentFailed SPMode.paused (t0 ++ [SPAction.enterMode .paused])
    else
      let t1 := if settle || !loose then
          t0 ++ [SPAction.enterMode .resumingState, SPAction.applyCall (!loose)]
        else t0
      .completed SPMode.normal (t1 ++ [SPAction.enterMode .normal, SPAction.sendEvent])

/-- C7: from `Paused`, resume enters `Resuming` and awaits `resume_parent`;
if that raises, the mode is restored to `Paused` and the exception
propagates with no `apply` performed; otherwise, when the block has `settle`
or the resume is non-loose, the program enters `ResumingState`, awaits
`apply`, and finishes in `Normal`. -/
theorem C7_state_resume :
    (∀ loose settle,
      stateResume SPMode.paused loose false settle
        = .parentFailed SPMode.paused
            [SPAction.enterMode .resuming, SPAction.sendEvent,
             SPAction.resumeParentCall, SPAction.enterMode .paused] ∧
      ∀ t, SPAction.applyCall t
            ∉ [SPAction.enterMode SPMode.resuming, SPAction.sendEvent,
               SPAction.resumeParentCall, SPAction.enterMode SPMode.paused]) ∧
    (∀ loose settle, (settle || !loose) = true →
      stateResume SPMode.paused loose true settle
        = .completed SPMode.normal
            [SPAction.enterMode .resuming, SPAction.sendEvent,
             SPAction.resumeParentCall, SPAction.enterMode .resumingState,
             SPAction.applyCall (!loose), SPAction.enterMode .normal,
             SPAction.sendEvent]) := by
  constructor
  · intro loose settle
    exact ⟨by cases loose <;> cases settle <;> rfl, by decide⟩
  · intro loose settle h
    cases loose <;> cases settle <;> simp_all <;> rfl

/-- Witness for C7: a non-loose resume whose parent resumes successfully. -/
theorem C7_state_resume_witness :
    stateResume SPMode.paused false true true
      = .completed SPMode.normal
          [SPAction.enterMode .resuming, SPAction.sendEvent,
           SPAction.resumeParentCall, SPAction.enterMode .resumingState,
           SPAction.applyCall true, SPAction.enterMode .normal,
           SPAction.sendEvent] :=
  C7_state_resume.2 false true rfl

/-! ## Global state manager: per-item location state (`pr1.state`) -/

/-- `StateLocationUnitEntry`: a unit location (opaque, coded as a `Nat`) and
a settled flag. -/
structure MEntry where
  location : Nat
  settled : Bool
deriving DecidableEq, Repr

/-- `StateEvent` (the fields `_handle_event` reads): an optional location,
the settled flag, and the error list (errors coded as strings). -/
structure MStateEvent where
  location : Option Nat := none
  settled : Bool := false
  errors : List String := []
deriving DecidableEq, Repr

/-- `StateRecord` as passed to `item._update_program`. -/
structure StateRecordM where
  errors : List String
  location : List (String × Option MEntry)
  settled : Bool
deriving DecidableEq, Repr

/-- The mutable fields of one `StateProgramItem`: the `applied` flag, the
`_settle_event` (a manual-reset event, here its set/clear state) and the
`StateLocation` entries (namespace → entry-or-`None`). -/
structure ItemState where
  applied : Bool := false
  settleEvent : Bool := false
  entries : List (String × Option MEntry)
deriving DecidableEq, Repr

/-- `all(entry and entry.settled for entry in item.location.entries.values())`
(state.py line 186). -/
def entriesAllSettled (entries : List (String × Option MEntry)) : Bool :=
  entries.all (fun p => match p.2 with
    | some e => e.settled
    | none => false)

/-- `GlobalStateManager._handle_event` (state.py lines 170–195): update or
create the namespace's entry (`none` models the failed
`assert event.location` when the entry does not exist yet, and the
`KeyError` when the namespace is unknown), recompute the settle event from
all entries, and emit a `StateRecord` to the item's program. -/
def handleEvent (st : ItemState) (ns : String) (ev : MStateEvent) :
    Option (ItemState × StateRecordM) :=
  (match st.entries.lookup ns with
    | none => none
    | some none => ev.location.map (fun loc => (⟨loc, ev.settled⟩ : MEntry))
    | some (some e) =>
      some ⟨(match ev.location with
        | some loc => loc
        | none => e.location), ev.settled⟩).map
  (fun newEntry =>
    let entries := st.entries.map (fun (p : String × Option MEntry) =>
      if p.1 = ns then (ns, some newEntry) else p)
    let settledNow := entriesAllSettled entries
    ({ st with entries := entries, settleEvent := settledNow },
     { errors := ev.errors, location := entries, settled := settledNow }))

/-! ## Devices state manager (`pr1_devices.runner`) -/

/-- `DevicesStateNodeCandidate`: the owning item (standing for its
`DevicesStateItemInfo`, which is in bijection with it through
`_item_infos`) and the evaluated value. -/
structure Candidate where
  item : SPItem
  value : Int
deriving DecidableEq, Repr

instance : Inhabited Candidate := ⟨⟨default, 0⟩⟩

/-- The fields of `DevicesStateNodeInfo` that the claims are about. The
claim, the lifecycle task and its update event are concurrency handles with
no bearing on candidate bookkeeping. -/
structure NodeInfo where
  candidates : List Candidate := []
  currentCandidate : Option Candidate := none
deriving DecidableEq, Repr

/-- `DevicesStateManager`'s state: `_node_infos` (total map over node ids;
absent nodes carry the empty `NodeInfo`), the `nodes` sets of the registered
`DevicesStateItemInfo`s (`_item_infos`), and `_updated_nodes`. -/
structure DState where
  nodeInfos : Nat → NodeInfo
  itemNodes : List (SPItem × List Nat)
  updatedNodes : List Nat

/-- The inner loop of `bisect.bisect_left`, fuelled: `lo`/`hi` narrow until
they meet; `lt y` decides `key(a[mid]) < x`. -/
def bisectLeftLoop {α : Type _} (lt : α → Bool) (dflt : α) (a : List α) :
    Nat → Nat → Nat → Nat
  | 0, lo, _ => lo
  | fuel + 1, lo, hi =>
    if lo < hi then
      match lt (a.getD ((lo + hi) / 2) dflt) with
      | true => bisectLeftLoop lt dflt a fuel ((lo + hi) / 2 + 1) hi
      | false => bisectLeftLoop lt dflt a fuel lo ((lo + hi) / 2)
    else lo

/-- `bisect.bisect_left(a, x, key=...)` over the whole list. -/
def bisectLeft {α : Type _} (lt : α → Bool) (dflt : α) (a : List α) : Nat :=
  bisectLeftLoop lt dflt a a.length 0 a.length

/-- `bisect.insort_left(a, x, key=...)`: insert `x` at the position found by
`bisect_left`. -/
def insortLeft {α : Type _} (lt : α → α → Bool) (dflt : α) (x : α) (a : List α) : List α :=
  let i := bisectLeft (fun y => lt y x) dflt a
  a.take i ++ x :: a.drop i

/-- Comparison of candidates by their items through
`StateProgramItem.__lt__`, the `key` of the `insort_left` call in
`DevicesStateManager.add` (runner.py line 180). -/
def candLt (c c' : Candidate) : Bool :=
  c.item.pylt c'.item

/-- `DevicesStateManager.add` (runner.py lines 156–182). Expression
evaluation against the stack happens outside the model: `vals` are the
evaluated `(node, value)` pairs of the item's `DevicesState`. Each value is
insorted into the node's candidate list keyed by the item ordering, the
item's node set is registered, and all its nodes are marked updated. -/
def devicesAdd (item : SPItem) (vals : List (Nat × Int)) (d : DState) : DState :=
  let infos := vals.foldl (fun f nv =>
    fun m => if m = nv.1 then
        { f nv.1 with
          candidates := insortLeft candLt default ⟨item, nv.2⟩ (f nv.1).candidates }
      else f m) d.nodeInfos
  { nodeInfos := infos
    itemNodes := (item, vals.map Prod.fst) :: d.itemNodes
    updatedNodes := vals.map Prod.fst ++ d.updatedNodes }

/-- The per-node effect of `DevicesStateManager.remove` (runner.py lines
188–192): drop the removed item's candidacy, and clear `current_candidate`
when it belonged to the removed item. -/
def removeNodeUpdate (item : SPItem) (ni : NodeInfo) : NodeInfo :=
  { candidates := ni.candidates.filter (fun c => c.item ≠ item)
    currentCandidate := match ni.currentCandidate with
      | some c => if c.item = item then none else some c
      | none => none }

/-- `DevicesStateManager.remove` (runner.py lines 184–195): for each node the
item owns, drop its candidacy and clear `current_candidate` when it was the
current one; mark those nodes updated; drop the item info. `none` models the
`KeyError` on an unknown item. -/
def devicesRemove (item : SPItem) (d : DState) : Option DState :=
  match d.itemNodes.lookup item with
  | none => none
  | some nodes =>
    let infos := nodes.foldl (fun f n =>
      fun m => if m = n then removeNodeUpdate item (f n) else f m) d.nodeInfos
    some { nodeInfos := infos
           itemNodes := d.itemNodes.filter (fun e => e.1 ≠ item)
           updatedNodes := nodes ++ d.updatedNodes }

/-- Line 208 of runner.py: the first candidate, scanning the candidate list
from its deep end (`candidates[::-1]`), whose item is applied or part of the
apply set. -/
def selectNewCandidate (applied : SPItem → Bool) (relevant : List SPItem)
    (cands : List Candidate) : Option Candidate :=
  cands.reverse.find? (fun c => applied c.item || relevant.contains c.item)

/-- The set `{ancestor for ancestor in item.ancestors() if not
ancestor.applied}` (runner.py line 204 and state.py line 259). -/
def relevantItems (applied : SPItem → Bool) (origin : SPItem) : List SPItem :=
  origin.ancestors.filter (fun it => !applied it)

/-- The per-node effect of lines 206–228 of runner.py: re-select the node's
`current_candidate`. -/
def applyNodeUpdate (applied : SPItem → Bool) (relevant : List SPItem)
    (ni : NodeInfo) : NodeInfo :=
  { ni with currentCandidate := selectNewCandidate applied relevant ni.candidates }

/-- `DevicesStateManager.apply` (runner.py lines 197–259), restricted to the
candidate bookkeeping: for every node marked updated, re-select
`current_candidate`; then clear `_updated_nodes`. Claim acquisition, the
node lifecycle tasks, the error-flag notification on a replaced candidate
and the returned per-item events touch no candidate state and are outside
the model. `applied` is the items' applied flag at call time (the flags are
set only after the consumer returns, state.py lines 264–265). -/
def devicesApply (applied : SPItem → Bool) (origin : SPItem) (d : DState) : DState :=
  let relevant := relevantItems applied origin
  let infos := d.updatedNodes.foldl (fun f n =>
    fun m => if m = n then applyNodeUpdate applied relevant (f n) else f m) d.nodeInfos
  { d with nodeInfos := infos, updatedNodes := [] }

/-- `DevicesStateManager.suspend` (runner.py lines 261–262): returns a
`StateEvent` carrying an empty `DevicesStateItemLocation` (location code 0)
and `settled=False` — the manager's candidate state is untouched. -/
def devicesSuspend (d : DState) : DState × MStateEvent :=
  (d, { location := some 0, settled := false })

/-! ## Global state manager operations (`pr1.state.GlobalStateManager`) -/

/-- `GlobalStateManager`'s state: `_items` (the handle → item registry) and
the heap of `StateProgramItem` mutable fields, total over item identities
(an item's fields start out as the defaults `GlobalStateManager.add`
assigns). -/
structure GState where
  registry : List (Handle × SPItem)
  states : SPItem → ItemState

/-- Update one item's fields in the heap. -/
def GState.setItem (g : GState) (item : SPItem) (st : ItemState) : GState :=
  { g with states := fun it => if it = item then st else g.states it }

/-- The `while` loop at the top of `GlobalStateManager.add` (state.py lines
200–206): starting from the handle, move to the parent while it is a
`ProgramHandle`, breaking as soon as the current handle has an item;
returns the handle the loop stops at. -/
def globalAddWalk (reg : List (Handle × SPItem)) : Handle → Handle
  | .master => .master
  | .node id p =>
    match p with
    | .master => .node id p
    | .node _ _ => if (reg.lookup p).isSome then p else globalAddWalk reg p

/-- `GlobalStateManager.add` (state.py lines 197–231): find the parent item
(state.py line 208 raises `KeyError`, modelled as `none`, when the walk
stopped on an ancestor handle that has no item), create the item with
`depth = parent.depth + 1` (or 0) and location entries all `None`, and
register it. The per-consumer `consumer.add` calls are composed in
`globalAddDevices`. Returns the new item. -/
def globalAdd (namespaces : List String) (g : GState) (h : Handle) :
    Option (GState × SPItem) :=
  let stop := globalAddWalk g.registry h
  let parentItem? : Option (Option SPItem) :=
    if stop = h then some none
    else match g.registry.lookup stop with
      | some it => some (some it)
      | none => none
  parentItem?.map (fun parentItem =>
    let item := match parentItem with
      | some p => SPItem.child h.path p
      | none => SPItem.root h.path
    let st : ItemState := { entries := namespaces.map (fun ns => (ns, none)) }
    (⟨(h, item) :: g.registry,
      fun it => if it = item then st else g.states it⟩, item))

/-- `GlobalStateManager.add` with the devices manager as the only consumer
(namespace `"devices"`), whose `add` is `devicesAdd`. -/
def globalAddDevices (g : GState) (d : DState) (h : Handle) (vals : List (Nat × Int)) :
    Option (GState × DState × SPItem) :=
  (globalAdd ["devices"] g h).map (fun gi => (gi.1, devicesAdd gi.2 vals d, gi.2))

/-- The `while` loop of `GlobalStateManager.apply` (state.py lines 247–251):
walk up from the handle until an item is found or the master is reached. -/
def findOrigin (reg : List (Handle × SPItem)) : Handle → Option SPItem
  | .master => none
  | .node id p =>
    match reg.lookup (.node id p) with
    | some it => some it
    | none => findOrigin reg p

/-- Result of `GlobalStateManager.apply`: the assertion failure, the
`return None` no-op, or completion carrying the new manager states and the
list of items whose `_settle_event` the call awaits before returning. -/
inductive ApplyResult where
  | assertionFailed
  | noop
  | ok (g : GState) (d : DState) (awaited : List SPItem)

/-- `GlobalStateManager.apply` (state.py lines 244–270) with the devices
manager as the only consumer: find the origin item; without one (or with it
already applied), no-op when `terminal` else `AssertionError`; otherwise run
the consumer's `apply` for the unapplied ancestors (the devices manager
recomputes exactly `relevantItems` from the origin item, runner.py line
204), then mark those items applied, then await every ancestor's settle
event. -/
def globalApply (g : GState) (d : DState) (h : Handle) (terminal : Bool) : ApplyResult :=
  match findOrigin g.registry h with
  | none => if terminal then .noop else .assertionFailed
  | some origin =>
    if (g.states origin).applied then
      if terminal then .noop else .assertionFailed
    else
      let appliedFlag := fun it => (g.states it).applied
      let relevant := relevantItems appliedFlag origin
      let d' := devicesApply appliedFlag origin d
      let states' := fun it =>
        if relevant.contains it then { g.states it with applied := true } else g.states it
      .ok { g with states := states' } d' origin.ancestors

/-- `GlobalStateManager.suspend` (state.py lines 278–293): look up the item
(`KeyError` → `none`), assert it is applied, clear the applied flag and the
settle event, assert every entry exists and clear its settled flag, then ask
each consumer to suspend in turn, feeding a returned event (if any) to
`_handle_event`. Returns the new item fields, the consumers asked (in
order), and the records emitted. -/
def suspendFoldStep (responses : String → Option MStateEvent)
    (acc : Option (ItemState × List StateRecordM)) (ns : String) :
    Option (ItemState × List StateRecordM) :=
  match acc with
  | none => none
  | some stRecs =>
    match responses ns with
    | none => some stRecs
    | some ev =>
      match handleEvent stRecs.1 ns ev with
      | none => none
      | some st' => some (st'.1, stRecs.2 ++ [st'.2])

def globalSuspendItem (namespaces : List String)
    (responses : String → Option MStateEvent) (st : ItemState) :
    Option (ItemState × List String × List StateRecordM) :=
  if ¬ st.applied then none
  else if st.entries.any (fun p => p.2.isNone) then none
  else
    let st1 : ItemState :=
      { applied := false
        settleEvent := false
        entries := st.entries.map (fun p =>
          (p.1, p.2.map (fun e => { e with settled := false }))) }
    let folded := namespaces.foldl (suspendFoldStep responses) (some (st1, []))
    folded.map (fun stRecs => (stRecs.1, namespaces, stRecs.2))

/-- `GlobalStateManager.suspend` lifted to the manager state. -/
def globalSuspend (namespaces : List String)
    (responses : String → Option MStateEvent) (g : GState) (h : Handle) :
    Option (GState × List String × List StateRecordM) :=
  match g.registry.lookup h with
  | none => none
  | some item =>
    (globalSuspendItem namespaces responses (g.states item)).map
      (fun res => (g.setItem item res.1, res.2.1, res.2.2))

/-- `GlobalStateManager.suspend` with the devices manager as the only
consumer: the devices response is `devicesSuspend`'s event and the node
state is untouched. -/
def globalSuspendDevices (g : GState) (d : DState) (h : Handle) :
    Option (GState × DState × List String × List StateRecordM) :=
  (globalSuspend ["devices"] (fun _ => some (devicesSuspend d).2) g h).map
    (fun res => (res.1, (devicesSuspend d).1, res.2.1, res.2.2))

/-- A consumer notification for `item` on namespace `ns`: the `notify`
callback wired in `GlobalStateManager.add` (state.py lines 228–229)
dispatches to `_handle_event`. In the devices manager this happens in the
node lifecycle task right after a successful write
(`item_info.do_notify`, runner.py lines 90–91 and 136–137). -/
def globalNotify (g : GState) (item : SPItem) (ns : String) (ev : MStateEvent) :
    Option (GState × StateRecordM) :=
  (handleEvent (g.states item) ns ev).map (fun str => (g.setItem item str.1, str.2))

/-! ## Theorems about `_handle_event` (C3) -/

theorem entriesAllSettled_iff (l : List (String × Option MEntry)) :
    entriesAllSettled l = true ↔ ∀ p ∈ l, ∃ e, p.2 = some e ∧ e.settled = true := by
  simp only [entriesAllSettled, List.all_eq_true]
  constructor
  · intro h p hp
    have hh := h p hp
    cases hpe : p.2 with
    | none => rw [hpe] at hh; simp at hh
    | some e => rw [hpe] at hh; exact ⟨e, rfl, hh⟩
  · intro h p hp
    obtain ⟨e, he, hs⟩ := h p hp
    rw [he]
    exact hs

/-- C3 (amended): after every consumer event processed by `_handle_event`,
the item's settle event is set exactly when every per-namespace entry exists
and is settled, and the emitted record carries that settled flag and the
item's location — but a record is emitted on every event (the emission is
unconditional, state.py line 191), not only on settled transitions. -/
theorem C3_item_settled_iff (st : ItemState) (ns : String) (ev : MStateEvent)
    (st' : ItemState) (r : StateRecordM)
    (h : handleEvent st ns ev = some (st', r)) :
    (st'.settleEvent = true ↔ ∀ p ∈ st'.entries, ∃ e, p.2 = some e ∧ e.settled = true) ∧
    r.settled = st'.settleEvent ∧ r.location = st'.entries ∧ r.errors = ev.errors := by
  simp only [handleEvent, Option.map_eq_some'] at h
  obtain ⟨newEntry, _, heq⟩ := h
  obtain ⟨hst, hr⟩ := Prod.mk.injEq .. ▸ heq
  subst hst hr
  refine ⟨?_, rfl, rfl, rfl⟩
  exact entriesAllSettled_iff _

/-- Witness for C3's amended theorem at a concrete event. -/
theorem C3_item_settled_iff_witness :
    (({ applied := false, settleEvent := true,
        entries := [("devices", some ⟨4, true⟩)] } : ItemState).settleEvent = true ↔
      ∀ p ∈ ([("devices", some ⟨4, true⟩)] : List (String × Option MEntry)),
        ∃ e, p.2 = some e ∧ e.settled = true) :=
  (C3_item_settled_iff { entries := [("devices", none)] } "devices"
    { location := some 4, settled := true }
    { applied := false, settleEvent := true, entries := [("devices", some ⟨4, true⟩)] }
    { errors := [], location := [("devices", some ⟨4, true⟩)], settled := true }
    (by decide)).1

/-- An item state that is already settled, and a consumer event that keeps
it settled: the inputs of the C3 counterexample. -/
def c3SettledItem : ItemState :=
  { applied := true, settleEvent := true, entries := [("devices", some ⟨5, true⟩)] }

def c3SettledEvent : MStateEvent := { location := some 6, settled := true }

/-- C3 counterexample: a consumer event arriving while the item is already
settled (and leaving it settled — no transition in either direction) still
makes `_handle_event` emit a record: the emission is not restricted to
settled transitions. -/
theorem C3_settled_record_counterexample :
    c3SettledItem.settleEvent = true ∧
    (handleEvent c3SettledItem "devices" c3SettledEvent).map
      (fun sr => (sr.1.settleEvent, sr.2.settled))
      = some (true, true) := by
  constructor
  · rfl
  · decide

/-! ## Theorems about `GlobalStateManager.suspend` (C6) -/

theorem lookup_mem {α β : Type _} [BEq α] [LawfulBEq α] {l : List (α × β)} {k : α} {v : β}
    (h : l.lookup k = some v) : (k, v) ∈ l := by
  induction l with
  | nil => simp [List.lookup] at h
  | cons p t ih =>
    obtain ⟨pk, pv⟩ := p
    rw [List.lookup] at h
    cases hbe : k == pk with
    | true =>
      rw [hbe] at h
      simp only [Option.some.injEq] at h
      subst h
      have hkk : k = pk := eq_of_beq hbe
      subst hkk
      exact List.mem_cons_self _ _
    | false =>
      rw [hbe] at h
      exact List.mem_cons_of_mem _ (ih h)

theorem lookup_isSome_iff_mem_keys {α β : Type _} [BEq α] [LawfulBEq α]
    (l : List (α × β)) (k : α) :
    (l.lookup k).isSome = true ↔ k ∈ l.map Prod.fst := by
  induction l with
  | nil => simp [List.lookup]
  | cons p t ih =>
    obtain ⟨pk, pv⟩ := p
    rw [List.lookup]
    cases hbe : k == pk with
    | true =>
      have hkk : k = pk := eq_of_beq hbe
      subst hkk
      simp
    | false =>
      have hne : k ≠ pk := by
        intro hc; subst hc; simp at hbe
      show (List.lookup k t).isSome = true ↔ k ∈ List.map Prod.fst ((pk, pv) :: t)
      simp only [List.map_cons, List.mem_cons]
      rw [ih]
      constructor
      · exact Or.inr
      · rintro (hc | hc)
        · exact absurd hc hne
        · exact hc

theorem keys_map_eq {α β : Type _} (f : α × β → α × β) (hf : ∀ p, (f p).1 = p.1)
    (l : List (α × β)) : (l.map f).map Prod.fst = l.map Prod.fst := by
  rw [List.map_map]
  exact List.map_congr_left (fun p _ => hf p)

/-- One entry exists and is unsettled. -/
def entryUnsettled (p : String × Option MEntry) : Bool :=
  match p.2 with
  | some e => !e.settled
  | none => false

/-- Every per-namespace entry exists and is unsettled — the state
`GlobalStateManager.suspend` leaves the item's location in. -/
def entriesAllUnsettled (l : List (String × Option MEntry)) : Bool :=
  l.all entryUnsettled

theorem entriesAllSettled_eq_false_of_unsettled {l : List (String × Option MEntry)}
    (hall : entriesAllUnsettled l = true) (hne : l ≠ []) :
    entriesAllSettled l = false := by
  cases l with
  | nil => exact absurd rfl hne
  | cons p t =>
    have hp : entryUnsettled p = true :=
      (List.all_eq_true.mp hall) p (List.mem_cons_self _ _)
    simp only [entriesAllSettled, List.all_cons]
    cases hpe : p.2 with
    | none => rfl
    | some e =>
      have hs : e.settled = false := by
        simp only [entryUnsettled, hpe, Bool.not_eq_true'] at hp
        exact hp
      show (e.settled && _) = false
      rw [hs]
      rfl

/-- Replacing (or keeping) entries by key preserves the key list. -/
theorem mapReplace_keys (l : List (String × Option MEntry)) (ns : String)
    (q : Option MEntry) :
    (l.map (fun p => if p.1 = ns then (ns, q) else p)).map Prod.fst
      = l.map Prod.fst := by
  refine keys_map_eq _ (fun p => ?_) _
  by_cases hp1 : p.1 = ns
  · simp [hp1]
  · simp [hp1]

/-- Replacing one entry by an unsettled one keeps all entries unsettled. -/
theorem mapReplace_unsettled {l : List (String × Option MEntry)}
    (hall : entriesAllUnsettled l = true) (ns : String) {q : Option MEntry}
    (hq : entryUnsettled (ns, q) = true) :
    entriesAllUnsettled (l.map (fun p => if p.1 = ns then (ns, q) else p)) = true := by
  refine List.all_eq_true.mpr ?_
  intro a ha
  obtain ⟨p, hp, hpa⟩ := List.mem_map.mp ha
  subst hpa
  by_cases hp1 : p.1 = ns
  · simp only [hp1, if_true]
    exact hq
  · simp only [hp1, if_false]
    exact (List.all_eq_true.mp hall) p hp

/-- Processing a consumer event with `settled=False` on an item whose
entries all exist and are unsettled succeeds, emits a record, and keeps the
item unapplied, its settle event clear and every entry unsettled. -/
theorem handleEvent_unsettled (st : ItemState) (ns : String) (ev : MStateEvent)
    (hev : ev.settled = false)
    (hmem : ns ∈ st.entries.map Prod.fst)
    (hall : entriesAllUnsettled st.entries = true) :
    ∃ st' r, handleEvent st ns ev = some (st', r) ∧
      st'.applied = st.applied ∧ st'.settleEvent = false ∧
      entriesAllUnsettled st'.entries = true ∧
      st'.entries.map Prod.fst = st.entries.map Prod.fst := by
  have hsome : (st.entries.lookup ns).isSome = true :=
    (lookup_isSome_iff_mem_keys _ _).mpr hmem
  obtain ⟨oldEntry, hlk⟩ := Option.isSome_iff_exists.mp hsome
  have hpmem : (ns, oldEntry) ∈ st.entries := lookup_mem hlk
  have hpu : entryUnsettled (ns, oldEntry) = true :=
    (List.all_eq_true.mp hall) _ hpmem
  obtain ⟨e, he⟩ : ∃ e, oldEntry = some e := by
    cases hoe : oldEntry with
    | none => rw [hoe] at hpu; exact absurd hpu (by simp [entryUnsettled])
    | some e => exact ⟨e, rfl⟩
  subst he
  rw [handleEvent, hlk]
  refine ⟨_, _, rfl, rfl, ?_, ?_, ?_⟩
  case refine_2 =>
    exact mapReplace_unsettled hall ns (by simp [entryUnsettled, hev])
  case refine_3 =>
    exact mapReplace_keys _ _ _
  case refine_1 =>
    refine entriesAllSettled_eq_false_of_unsettled
      (mapReplace_unsettled hall ns (by simp [entryUnsettled, hev])) ?_
    intro hc
    rw [← mapReplace_keys st.entries ns
      (some ⟨(match ev.location with | some loc => loc | none => e.location),
        ev.settled⟩), hc] at hmem
    simp at hmem

/-- The consumer loop of `GlobalStateManager.suspend` succeeds on a state
whose entries are all unsettled (given consumer responses with
`settled=False`) and preserves that state. -/
theorem suspendFold_spec (responses : String → Option MStateEvent)
    (hresp : ∀ ns ev, responses ns = some ev → ev.settled = false) :
    ∀ (nss : List String) (st : ItemState) (recs : List StateRecordM),
      st.applied = false → st.settleEvent = false →
      entriesAllUnsettled st.entries = true →
      (∀ ns ∈ nss, ns ∈ st.entries.map Prod.fst) →
      ∃ res, nss.foldl (suspendFoldStep responses) (some (st, recs)) = some res ∧
        res.1.applied = false ∧ res.1.settleEvent = false ∧
        entriesAllUnsettled res.1.entries = true := by
  intro nss
  induction nss with
  | nil =>
    intro st recs h1 h2 h3 _
    exact ⟨(st, recs), rfl, h1, h2, h3⟩
  | cons ns rest ih =>
    intro st recs h1 h2 h3 h4
    rw [List.foldl_cons]
    cases hr : responses ns with
    | none =>
      have hstep : suspendFoldStep responses (some (st, recs)) ns = some (st, recs) := by
        simp [suspendFoldStep, hr]
      rw [hstep]
      exact ih st recs h1 h2 h3 (fun n hn => h4 n (List.mem_cons_of_mem _ hn))
    | some ev =>
      have hev := hresp ns ev hr
      obtain ⟨st', r, hhe, ha, hs, hu, hk⟩ :=
        handleEvent_unsettled st ns ev hev (h4 ns (List.mem_cons_self _ _)) h3
      have hstep : suspendFoldStep responses (some (st, recs)) ns
          = some (st', recs ++ [r]) := by
        simp [suspendFoldStep, hr, hhe]
      rw [hstep]
      exact ih st' (recs ++ [r]) (ha.trans h1) hs hu
        (fun n hn => hk ▸ h4 n (List.mem_cons_of_mem _ hn))

/-- C6: under the precondition that the handle's item is applied (and its
entries all exist), `GlobalStateManager.suspend` succeeds, marks the item
unapplied, clears its settle event and every per-namespace settled flag,
and consults every consumer (the full namespace list is asked, in order,
each awaited before the next) — given consumer responses that are not
settled, as the devices consumer's is. -/
theorem C6_global_suspend
    (namespaces : List String) (responses : String → Option MStateEvent)
    (g : GState) (h : Handle) (item : SPItem)
    (hlook : g.registry.lookup h = some item)
    (happ : (g.states item).applied = true)
    (hent : ∀ p ∈ (g.states item).entries, p.2.isSome = true)
    (hns : ∀ ns ∈ namespaces, ns ∈ (g.states item).entries.map Prod.fst)
    (hresp : ∀ ns ev, responses ns = some ev → ev.settled = false) :
    (globalSuspend namespaces responses g h).map
      (fun res => (res.2.1, (res.1.states item).applied,
        (res.1.states item).settleEvent,
        entriesAllUnsettled (res.1.states item).entries))
      = some (namespaces, false, false, true) := by
  have hany : ((g.states item).entries.any (fun p => p.2.isNone)) = false := by
    refine List.any_eq_false.mpr ?_
    intro p hp
    have hs := hent p hp
    cases hpe : p.2 with
    | none => rw [hpe] at hs; simp at hs
    | some e => simp [hpe]
  have hall1 : entriesAllUnsettled ((g.states item).entries.map (fun p =>
      (p.1, p.2.map (fun e => { e with settled := false })))) = true := by
    refine List.all_eq_true.mpr ?_
    intro q hq
    obtain ⟨p, hp, hq⟩ := List.mem_map.mp hq
    subst hq
    obtain ⟨e, he⟩ := Option.isSome_iff_exists.mp (hent p hp)
    simp [entryUnsettled, he]
  have hkeys1 : (((g.states item).entries.map (fun p =>
      (p.1, p.2.map (fun e => { e with settled := false })))).map Prod.fst)
      = (g.states item).entries.map Prod.fst :=
    keys_map_eq (fun p => (p.1, p.2.map (fun e => { e with settled := false })))
      (fun p => rfl) (g.states item).entries
  obtain ⟨res, hres, hra, hrs, hru⟩ :=
    suspendFold_spec responses hresp namespaces
      { applied := false, settleEvent := false,
        entries := (g.states item).entries.map (fun p =>
          (p.1, p.2.map (fun e => { e with settled := false }))) } [] rfl rfl hall1
      (fun ns hn => by
        show ns ∈ ((g.states item).entries.map (fun p =>
          (p.1, p.2.map (fun e => { e with settled := false })))).map Prod.fst
        rw [hkeys1]
        exact hns ns hn)
  have hitem : globalSuspendItem namespaces responses (g.states item)
      = some (res.1, namespaces, res.2) := by
    rw [globalSuspendItem]
    rw [if_neg (by rw [happ]; simp)]
    rw [if_neg (by rw [hany]; simp)]
    simp only [hres, Option.map_some']
  simp only [globalSuspend, hlook]
  rw [hitem]
  simp only [Option.map_some']
  simp [GState.setItem, hra, hrs, hru]

/-- Concrete inputs for the C6 witness: one registered applied item with a
settled devices entry. -/
def c6Item : SPItem := .root [0]

def c6G : GState :=
  { registry := [(.node 0 .master, c6Item)]
    states := fun it =>
      if it = c6Item then
        { applied := true, settleEvent := true,
          entries := [("devices", some ⟨1, true⟩)] }
      else { entries := [] } }

/-- Witness for C6: suspending the item at the concrete state above. -/
theorem C6_global_suspend_witness :
    (globalSuspend ["devices"] (fun _ => some (devicesSuspend ⟨fun _ => {}, [], []⟩).2)
        c6G (.node 0 .master)).map
      (fun res => (res.2.1, (res.1.states c6Item).applied,
        (res.1.states c6Item).settleEvent,
        entriesAllUnsettled (res.1.states c6Item).entries))
      = some (["devices"], false, false, true) :=
  C6_global_suspend ["devices"] _ c6G (.node 0 .master) c6Item
    (by decide) (by decide) (by decide) (by decide)
    (fun ns ev hev => by
      simp only [devicesSuspend, Option.some.injEq] at hev
      rw [← hev])

/-! ## Candidate ordering and selection (C1, C2) -/

theorem SPItem.ancestors_subset {a p : SPItem} (h : a ∈ p.ancestors) :
    a.ancestors ⊆ p.ancestors := by
  induction p with
  | root pid =>
    simp only [SPItem.ancestors, List.mem_singleton] at h
    subst h
    exact fun x hx => hx
  | child pid q ih =>
    simp only [SPItem.ancestors, List.mem_cons] at h
    rcases h with h | h
    · subst h
      exact fun x hx => hx
    · intro x hx
      exact List.mem_cons_of_mem _ (ih h hx)

theorem SPItem.pylt_trans {a b c : SPItem} (hab : a.pylt b = true)
    (hbc : b.pylt c = true) : a.pylt c = true := by
  rw [SPItem.pylt_iff_properAncestor] at hab hbc ⊢
  have hb : ∃ pid q, c = SPItem.child pid q ∧ b ∈ q.ancestors := by
    cases c with
    | root pid => simp [SPItem.properAncestors] at hbc
    | child pid q => exact ⟨pid, q, rfl, hbc⟩
  obtain ⟨pid, q, rfl, hq⟩ := hb
  have hsub : b.ancestors ⊆ q.ancestors := SPItem.ancestors_subset hq
  have hab' : a ∈ b.ancestors := by
    rw [SPItem.ancestors_eq]
    exact List.mem_cons_of_mem _ hab
  exact hsub hab'

theorem candLt_trans {a b c : Candidate} (hab : candLt a b = true)
    (hbc : candLt b c = true) : candLt a c = true :=
  SPItem.pylt_trans hab hbc

theorem find?_desc {α : Type _} (R : α → α → Bool) (p : α → Bool) :
    ∀ l : List α, l.Pairwise (fun a b => R b a = true) →
      ∀ c, l.find? p = some c → p c = true ∧ c ∈ l ∧
        ∀ c' ∈ l, p c' = true → c' = c ∨ R c' c = true := by
  intro l
  induction l with
  | nil => intro _ c hc; simp at hc
  | cons a t ih =>
    intro hp c hc
    rw [List.find?_cons] at hc
    cases hpa : p a with
    | true =>
      rw [hpa] at hc
      simp only [Option.some.injEq] at hc
      subst hc
      refine ⟨hpa, List.mem_cons_self _ _, ?_⟩
      intro c' hc' _
      rcases List.mem_cons.mp hc' with h | h
      · exact Or.inl h
      · exact Or.inr ((List.pairwise_cons.mp hp).1 c' h)
    | false =>
      rw [hpa] at hc
      obtain ⟨h1, h2, h3⟩ := ih (List.pairwise_cons.mp hp).2 c hc
      refine ⟨h1, List.mem_cons_of_mem _ h2, ?_⟩
      intro c' hc' hpc'
      rcases List.mem_cons.mp hc' with h | h
      · subst h; rw [hpa] at hpc'; cases hpc'
      · exact h3 c' h hpc'

/-- On a candidate list sorted ascending by the item ordering, line 208's
reverse scan returns a qualifying candidate that no other qualifying
candidate lies strictly deeper than; when it returns `none`, no candidate
qualifies. -/
theorem selectNewCandidate_spec (applied : SPItem → Bool) (relevant : List SPItem)
    (cands : List Candidate)
    (hs : cands.Pairwise (fun c c' => candLt c c' = true)) :
    (∀ c, selectNewCandidate applied relevant cands = some c →
      (applied c.item || relevant.contains c.item) = true ∧ c ∈ cands ∧
      ∀ c' ∈ cands, (applied c'.item || relevant.contains c'.item) = true →
        c' = c ∨ candLt c' c = true) ∧
    (selectNewCandidate applied relevant cands = none →
      ∀ c' ∈ cands, (applied c'.item || relevant.contains c'.item) = false) := by
  constructor
  · intro c hc
    obtain ⟨h1, h2, h3⟩ := find?_desc candLt _ cands.reverse
      (List.pairwise_reverse.mpr hs) c hc
    exact ⟨h1, List.mem_reverse.mp h2,
      fun c' hc' hp => h3 c' (List.mem_reverse.mpr hc') hp⟩
  · intro hc c' hc'
    have := List.find?_eq_none.mp hc c' (List.mem_reverse.mpr hc')
    exact Bool.not_eq_true _ ▸ Bool.of_not_eq_true this

theorem bisectLeftLoop_spec {α : Type _} (lt : α → Bool) (dflt : α) (a : List α)
    (hmono : ∀ i j, i ≤ j → j < a.length → lt (a.getD j dflt) = true →
      lt (a.getD i dflt) = true) :
    ∀ (fuel lo hi : Nat), lo ≤ hi → hi ≤ a.length → hi - lo ≤ fuel →
      (∀ j, j < lo → lt (a.getD j dflt) = true) →
      (∀ j, hi ≤ j → j < a.length → lt (a.getD j dflt) = false) →
      bisectLeftLoop lt dflt a fuel lo hi ≤ a.length ∧
      (∀ j, j < bisectLeftLoop lt dflt a fuel lo hi → lt (a.getD j dflt) = true) ∧
      (∀ j, bisectLeftLoop lt dflt a fuel lo hi ≤ j → j < a.length →
        lt (a.getD j dflt) = false) := by
  intro fuel
  induction fuel with
  | zero =>
    intro lo hi hlh hha hfuel hlow hhigh
    have heq : lo = hi := by omega
    subst heq
    simp only [bisectLeftLoop]
    exact ⟨by omega, hlow, fun j hj hjl => hhigh j hj hjl⟩
  | succ n ih =>
    intro lo hi hlh hha hfuel hlow hhigh
    by_cases hcmp : lo < hi
    · have hmlen : (lo + hi) / 2 < a.length := by omega
      cases hltm : lt (a.getD ((lo + hi) / 2) dflt) with
      | true =>
        have hred : bisectLeftLoop lt dflt a (n + 1) lo hi
            = bisectLeftLoop lt dflt a n ((lo + hi) / 2 + 1) hi := by
          simp only [bisectLeftLoop, if_pos hcmp, hltm]
        rw [hred]
        refine ih ((lo + hi) / 2 + 1) hi (by omega) hha (by omega) ?_ hhigh
        intro j hj
        exact hmono j ((lo + hi) / 2) (by omega) hmlen hltm
      | false =>
        have hred : bisectLeftLoop lt dflt a (n + 1) lo hi
            = bisectLeftLoop lt dflt a n lo ((lo + hi) / 2) := by
          simp only [bisectLeftLoop, if_pos hcmp, hltm]
        rw [hred]
        refine ih lo ((lo + hi) / 2) (by omega) (by omega) (by omega) hlow ?_
        intro j hj hjl
        cases hlj : lt (a.getD j dflt) with
        | false => rfl
        | true =>
          have hcontr := hmono ((lo + hi) / 2) j hj hjl hlj
          rw [hltm] at hcontr
          cases hcontr
    · have heq : lo = hi := by omega
      subst heq
      simp only [bisectLeftLoop, if_neg hcmp]
      exact ⟨by omega, hlow, fun j hj hjl => hhigh j hj hjl⟩

theorem bisectLeft_spec {α : Type _} (lt : α → Bool) (dflt : α) (a : List α)
    (hmono : ∀ i j, i ≤ j → j < a.length → lt (a.getD j dflt) = true →
      lt (a.getD i dflt) = true) :
    bisectLeft lt dflt a ≤ a.length ∧
    (∀ j, j < bisectLeft lt dflt a → lt (a.getD j dflt) = true) ∧
    (∀ j, bisectLeft lt dflt a ≤ j → j < a.length → lt (a.getD j dflt) = false) :=
  bisectLeftLoop_spec lt dflt a hmono a.length 0 a.length (by omega) (le_refl _)
    (by omega) (fun j hj => absurd hj (by omega)) (fun j hj hjl => absurd hjl (by omega))

/-- `insort_left` keeps a list strictly sorted under a transitive boolean
order when the inserted element is comparable with every element. -/
theorem insortLeft_pairwise {α : Type _} (lt : α → α → Bool) (dflt : α) (x : α)
    (l : List α)
    (htrans : ∀ a b c, lt a b = true → lt b c = true → lt a c = true)
    (hs : l.Pairwise (fun a b => lt a b = true))
    (hcomp : ∀ c ∈ l, lt c x = true ∨ lt x c = true) :
    (insortLeft lt dflt x l).Pairwise (fun a b => lt a b = true) := by
  have hmono : ∀ i j, i ≤ j → j < l.length → lt (l.getD j dflt) x = true →
      lt (l.getD i dflt) x = true := by
    intro i j hij hjl hlt
    rcases Nat.eq_or_lt_of_le hij with heq | hlt2
    · subst heq; exact hlt
    · have hi : i < l.length := by omega
      rw [List.getD_eq_getElem l dflt hi]
      rw [List.getD_eq_getElem l dflt hjl] at hlt
      exact htrans _ _ _ ((List.pairwise_iff_getElem.mp hs) i j hi hjl hlt2) hlt
  obtain ⟨hle, hlow, hhigh⟩ := bisectLeft_spec (fun y => lt y x) dflt l hmono
  rw [insortLeft]
  rw [List.pairwise_append]
  refine ⟨hs.sublist (List.take_sublist _ _), ?_, ?_⟩
  · rw [List.pairwise_cons]
    refine ⟨?_, hs.sublist (List.drop_sublist _ _)⟩
    intro b hb
    obtain ⟨k, hk, hbk⟩ := List.mem_iff_getElem.mp hb
    have hklen : bisectLeft (fun y => lt y x) dflt l + k < l.length := by
      simp only [List.length_drop] at hk
      omega
    have hbl : l.getD (bisectLeft (fun y => lt y x) dflt l + k) dflt = b := by
      rw [List.getD_eq_getElem l dflt hklen, ← hbk]
      exact (List.getElem_drop _).symm
    have hfalse := hhigh (bisectLeft (fun y => lt y x) dflt l + k) (by omega) hklen
    rw [hbl] at hfalse
    have hmem : b ∈ l := (List.drop_sublist _ _).subset hb
    rcases hcomp b hmem with hcx | hxc
    · rw [hcx] at hfalse; cases hfalse
    · exact hxc
  · intro a' ha' b hb
    obtain ⟨j, hj, haj⟩ := List.mem_iff_getElem.mp ha'
    have hji : j < bisectLeft (fun y => lt y x) dflt l := by
      simp only [List.length_take] at hj
      omega
    have hjlen : j < l.length := by omega
    have haj' : l.getD j dflt = a' := by
      rw [List.getD_eq_getElem l dflt hjlen, ← haj]
      exact (List.getElem_take l).symm
    rcases List.mem_cons.mp hb with hbx | hb
    · subst hbx
      have hlt := hlow j hji
      rw [haj'] at hlt
      exact hlt
    · obtain ⟨k, hk, hbk⟩ := List.mem_iff_getElem.mp hb
      have hklen : bisectLeft (fun y => lt y x) dflt l + k < l.length := by
        simp only [List.length_drop] at hk
        omega
      have hbl : l.getD (bisectLeft (fun y => lt y x) dflt l + k) dflt = b := by
        rw [List.getD_eq_getElem l dflt hklen, ← hbk]
        exact (List.getElem_drop _).symm
      have hpw := (List.pairwise_iff_getElem.mp hs) j
        (bisectLeft (fun y => lt y x) dflt l + k) hjlen hklen (by omega)
      rw [← List.getD_eq_getElem l dflt hjlen, ← List.getD_eq_getElem l dflt hklen] at hpw
      rw [haj', hbl] at hpw
      exact hpw

/-- Pointwise description of the per-node update folds of the devices
manager (iterating a node set and updating each node's info in place with an
idempotent per-node change). -/
theorem foldl_update_eq {ι β : Type _} [DecidableEq ι] (G : β → β)
    (hG : ∀ x, G (G x) = G x) :
    ∀ (l : List ι) (f0 : ι → β) (m : ι),
      l.foldl (fun f n => fun m' => if m' = n then G (f n) else f m') f0 m
        = if m ∈ l then G (f0 m) else f0 m := by
  intro l
  induction l with
  | nil => intro f0 m; simp
  | cons n t ih =>
    intro f0 m
    rw [List.foldl_cons, ih]
    by_cases hmn : m = n
    · subst hmn
      by_cases hmt : m ∈ t
      · simp [hmt, hG]
      · simp [hmt]
    · by_cases hmt : m ∈ t
      · simp [hmt, hmn]
      · simp [hmt, hmn]

/-- What `DevicesStateManager.apply` does to each node's info. -/
theorem devicesApply_nodeInfos (applied : SPItem → Bool) (origin : SPItem)
    (d : DState) (n : Nat) :
    (devicesApply applied origin d).nodeInfos n
      = if n ∈ d.updatedNodes then
          applyNodeUpdate applied (relevantItems applied origin) (d.nodeInfos n)
        else d.nodeInfos n :=
  foldl_update_eq (applyNodeUpdate applied (relevantItems applied origin))
    (fun _ => rfl) d.updatedNodes d.nodeInfos n

theorem filter_idem {α : Type _} (p : α → Bool) (l : List α) :
    (l.filter p).filter p = l.filter p := by
  induction l with
  | nil => rfl
  | cons a t ih =>
    cases hp : p a with
    | true => simp [List.filter_cons, hp, ih]
    | false => simp [List.filter_cons, hp, ih]

theorem removeNodeUpdate_idem (item : SPItem) (ni : NodeInfo) :
    removeNodeUpdate item (removeNodeUpdate item ni) = removeNodeUpdate item ni := by
  cases ni with
  | mk cands cur =>
    simp only [removeNodeUpdate, NodeInfo.mk.injEq]
    constructor
    · exact filter_idem _ _
    · cases cur with
      | none => rfl
      | some c =>
        by_cases hc : c.item = item
        · simp [hc]
        · simp [hc]

/-- What `DevicesStateManager.remove` does to each node's info. -/
theorem devicesRemove_eq (item : SPItem) (d : DState) (nodes : List Nat)
    (hlk : d.itemNodes.lookup item = some nodes) :
    devicesRemove item d = some
      { nodeInfos := fun m =>
          if m ∈ nodes then removeNodeUpdate item (d.nodeInfos m) else d.nodeInfos m
        itemNodes := d.itemNodes.filter (fun e => e.1 ≠ item)
        updatedNodes := nodes ++ d.updatedNodes } := by
  have hfold : nodes.foldl (fun f n =>
        fun m => if m = n then removeNodeUpdate item (f n) else f m) d.nodeInfos
      = fun m =>
        if m ∈ nodes then removeNodeUpdate item (d.nodeInfos m) else d.nodeInfos m :=
    funext (foldl_update_eq (removeNodeUpdate item)
      (removeNodeUpdate_idem item) nodes d.nodeInfos)
  simp only [devicesRemove, hlk]
  rw [hfold]

theorem contains_iff_mem {α : Type _} [BEq α] [LawfulBEq α] (l : List α) (a : α) :
    l.contains a = true ↔ a ∈ l :=
  List.elem_iff

/-- The selection predicate of runner.py line 208 — item applied or in the
apply set — agrees with "applied or an ancestor item of the origin" (the
apply set is exactly the unapplied ancestors). -/
theorem qual_or_ancestors (applied : SPItem → Bool) (origin it : SPItem) :
    (applied it || (relevantItems applied origin).contains it)
      = (applied it || origin.ancestors.contains it) := by
  cases hA : applied it
  · simp only [Bool.false_or]
    by_cases hm : it ∈ origin.ancestors
    · have h1 : it ∈ relevantItems applied origin := by
        rw [relevantItems, List.mem_filter]
        exact ⟨hm, by rw [hA]; rfl⟩
      rw [(contains_iff_mem _ _).mpr h1, (contains_iff_mem _ _).mpr hm]
    · have e1 : (relevantItems applied origin).contains it = false := by
        rw [Bool.eq_false_iff]
        intro hc
        have := (contains_iff_mem _ _).mp hc
        rw [relevantItems, List.mem_filter] at this
        exact hm this.1
      have e2 : origin.ancestors.contains it = false := by
        rw [Bool.eq_false_iff]
        intro hc
        exact hm ((contains_iff_mem _ _).mp hc)
      rw [e1, e2]
  · rfl

/-- C1 (amended): for every node of the devices state manager whose
candidate list is sorted by the item ordering (as `add` maintains, last
conjunct), an `apply` leaves the candidate list unchanged and — for the
nodes marked updated, the only ones it reconsiders — re-selects
`current_candidate` as the deepest-priority candidate whose item is applied
or part of the apply set (none qualifying → `None`); `remove` drops the
removed item's candidacy, clears `current_candidate` when it was that
item's, and marks the node updated, so the fallback to the deepest remaining
applied candidate happens at the *next* apply; `suspend`, however, leaves
the devices manager's candidate state completely untouched — contrary to
the claim, no fallback occurs when an item is merely suspended. -/
theorem C1_priority_ordering (applied : SPItem → Bool) (origin : SPItem)
    (d : DState) (n : Nat)
    (hsort : (d.nodeInfos n).candidates.Pairwise (fun c c' => candLt c c' = true)) :
    ((devicesApply applied origin d).nodeInfos n).candidates
        = (d.nodeInfos n).candidates ∧
    (n ∈ d.updatedNodes →
      (∀ c, ((devicesApply applied origin d).nodeInfos n).currentCandidate = some c →
        (applied c.item || (relevantItems applied origin).contains c.item) = true ∧
        c ∈ (d.nodeInfos n).candidates ∧
        ∀ c' ∈ (d.nodeInfos n).candidates,
          (applied c'.item || (relevantItems applied origin).contains c'.item) = true →
          c' = c ∨ candLt c' c = true) ∧
      (((devicesApply applied origin d).nodeInfos n).currentCandidate = none →
        ∀ c' ∈ (d.nodeInfos n).candidates,
          (applied c'.item || (relevantItems applied origin).contains c'.item) = false)) ∧
    (∀ item nodes d', d.itemNodes.lookup item = some nodes →
      devicesRemove item d = some d' → n ∈ nodes →
      (d'.nodeInfos n).candidates
        = (d.nodeInfos n).candidates.filter (fun c => c.item ≠ item) ∧
      (∀ c, (d.nodeInfos n).currentCandidate = some c → c.item = item →
        (d'.nodeInfos n).currentCandidate = none) ∧
      n ∈ d'.updatedNodes) ∧
    (devicesSuspend d).1 = d ∧
    (∀ item v, (∀ c ∈ (d.nodeInfos n).candidates,
        candLt c ⟨item, v⟩ = true ∨ candLt ⟨item, v⟩ c = true) →
      ((devicesAdd item [(n, v)] d).nodeInfos n).candidates.Pairwise
        (fun c c' => candLt c c' = true)) := by
  refine ⟨?_, ?_, ?_, rfl, ?_⟩
  · rw [devicesApply_nodeInfos]
    by_cases hn : n ∈ d.updatedNodes
    · rw [if_pos hn]; rfl
    · rw [if_neg hn]
  · intro hn
    have hcur : ((devicesApply applied origin d).nodeInfos n).currentCandidate
        = selectNewCandidate applied (relevantItems applied origin)
            (d.nodeInfos n).candidates := by
      rw [devicesApply_nodeInfos, if_pos hn]; rfl
    rw [hcur]
    exact selectNewCandidate_spec applied _ _ hsort
  · intro item nodes d' hlk hrm hn
    rw [devicesRemove_eq item d nodes hlk] at hrm
    simp only [Option.some.injEq] at hrm
    subst hrm
    refine ⟨?_, ?_, ?_⟩
    · simp only [if_pos hn, removeNodeUpdate]
    · intro c hc hci
      simp only [if_pos hn, removeNodeUpdate, hc, hci]
      simp
    · exact List.mem_append_left _ hn
  · intro item v hcomp
    have hcand : ((devicesAdd item [(n, v)] d).nodeInfos n).candidates
        = insortLeft candLt default ⟨item, v⟩ (d.nodeInfos n).candidates := by
      simp [devicesAdd]
    rw [hcand]
    exact insortLeft_pairwise candLt default ⟨item, v⟩ _
      (fun a b c hab hbc => candLt_trans hab hbc) hsort hcomp

/-- Shared concrete handles, items and empty manager states for the C1 and
C2 witnesses and the C1 counterexample trace. -/
def hdlA : Handle := .node 0 .master

def hdlB : Handle := .node 1 hdlA

def itemA : SPItem := .root [0]

def itemB : SPItem := .child [1, 0] itemA

def d0 : DState := { nodeInfos := fun _ => {}, itemNodes := [], updatedNodes := [] }

def g0 : GState := { registry := [], states := fun _ => { entries := [("devices", none)] } }

/-- Witness for C1 at a concrete one-node manager state. -/
theorem C1_priority_ordering_witness :
    ((devicesApply (fun _ => true) itemA
        { nodeInfos := fun _ => { candidates := [⟨itemA, 1⟩] }
          itemNodes := [(itemA, [0])], updatedNodes := [0] }).nodeInfos 0).candidates
      = [⟨itemA, 1⟩] ∧
    (devicesSuspend
        { nodeInfos := fun _ => { candidates := [⟨itemA, 1⟩] }
          itemNodes := [(itemA, [0])], updatedNodes := [0] }).1
      = { nodeInfos := fun _ => { candidates := [⟨itemA, 1⟩] }
          itemNodes := [(itemA, [0])], updatedNodes := [0] } :=
  ⟨(C1_priority_ordering (fun _ => true) itemA
      { nodeInfos := fun _ => { candidates := [⟨itemA, 1⟩] }
        itemNodes := [(itemA, [0])], updatedNodes := [0] } 0 (by decide)).1,
   (C1_priority_ordering (fun _ => true) itemA
      { nodeInfos := fun _ => { candidates := [⟨itemA, 1⟩] }
        itemNodes := [(itemA, [0])], updatedNodes := [0] } 0 (by decide)).2.2.2.1⟩

def ApplyResult.toOpt : ApplyResult → Option (GState × DState × List SPItem)
  | .ok g d l => some (g, d, l)
  | .assertionFailed => none
  | .noop => none

/-- The C1 counterexample trace: add an outer state item `itemA` writing 1
to node 0 and an inner item `itemB` writing 2, apply the inner handle
(both items become applied, node 0's current candidate is `itemB`'s), let
the node lifecycle notify both items settled, then suspend the inner item
(as a pause does, via `GlobalStateManager.suspend`). -/
def c1Trace : Option (GState × DState) := do
  let s1 ← globalAddDevices g0 d0 hdlA [(0, 1)]
  let s2 ← globalAddDevices s1.1 s1.2.1 hdlB [(0, 2)]
  let s3 ← (globalApply s2.1 s2.2.1 hdlB false).toOpt
  let s4 ← globalNotify s3.1 itemA "devices" { location := some 11, settled := true }
  let s5 ← globalNotify s4.1 itemB "devices" { location := some 12, settled := true }
  let s6 ← globalSuspendDevices s5.1 s3.2.1 hdlB
  some (s6.1, s6.2.1)

/-- C1 counterexample: after the trace above, `itemB` is suspended (not
applied) while `itemA` is still applied, yet node 0's `current_candidate`
is still `itemB`'s candidate `(itemB, 2)` — the deepest *applied* candidate
is `(itemA, 1)` (last component, the reverse scan over the applied items
only), so contrary to the claim the node did not fall back to it on
suspension; the manager's suspend touches no candidate state. -/
theorem C1_suspend_counterexample :
    c1Trace.map (fun gd =>
        ((gd.2.nodeInfos 0).candidates,
         (gd.2.nodeInfos 0).currentCandidate,
         (gd.1.states itemA).applied,
         (gd.1.states itemB).applied,
         selectNewCandidate (fun it => (gd.1.states it).applied) []
           (gd.2.nodeInfos 0).candidates))
      = some ([⟨itemA, 1⟩, ⟨itemB, 2⟩], some ⟨itemB, 2⟩, true, false,
          some ⟨itemA, 1⟩) ∧
    (⟨itemB, 2⟩ : Candidate) ≠ ⟨itemA, 1⟩ := by
  constructor
  · decide
  · decide

/-! ## `GlobalStateManager.apply` (C2) -/

def ApplyResult.awaited : ApplyResult → Option (List SPItem)
  | .ok _ _ l => some l
  | _ => none

def ApplyResult.appliedAt : ApplyResult → SPItem → Option Bool
  | .ok g _ _, it => some (g.states it).applied
  | _, _ => none

def ApplyResult.nodeInfoAt : ApplyResult → Nat → Option NodeInfo
  | .ok _ d _, n => some (d.nodeInfos n)
  | _, _ => none

def ApplyResult.updatedOut : ApplyResult → Option (List Nat)
  | .ok _ d _ => some d.updatedNodes
  | _ => none

/-- C2: `GlobalStateManager.apply(handle, terminal)`, with the devices
manager as consumer: when `terminal` is true and no item exists for the
handle (nor any ancestor handle), the call is a no-op returning `None`;
otherwise, with an unapplied origin item, it completes, awaiting every
ancestor item's settle event (origin included), marks exactly the
not-yet-applied ancestor items applied (leaving every other item's flag
alone), clears the updated-node set, leaves nodes not marked updated
untouched, and re-selects each updated node's `current_candidate` as the
deepest-priority sorted candidate whose item is in the apply set or already
applied. -/
theorem C2_global_apply (g : GState) (d : DState) (h : Handle) :
    (findOrigin g.registry h = none → globalApply g d h true = .noop) ∧
    (∀ origin, findOrigin g.registry h = some origin →
      (g.states origin).applied = false → ∀ terminal,
      (globalApply g d h terminal).awaited = some origin.ancestors ∧
      (∀ it, (globalApply g d h terminal).appliedAt it
        = some ((g.states it).applied || origin.ancestors.contains it)) ∧
      (globalApply g d h terminal).updatedOut = some [] ∧
      (∀ n, n ∉ d.updatedNodes →
        (globalApply g d h terminal).nodeInfoAt n = some (d.nodeInfos n)) ∧
      (∀ n, n ∈ d.updatedNodes →
        (globalApply g d h terminal).nodeInfoAt n
          = some (applyNodeUpdate (fun it => (g.states it).applied)
              (relevantItems (fun it => (g.states it).applied) origin)
              (d.nodeInfos n)) ∧
        ((d.nodeInfos n).candidates.Pairwise (fun c c' => candLt c c' = true) →
          ∀ c, selectNewCandidate (fun it => (g.states it).applied)
              (relevantItems (fun it => (g.states it).applied) origin)
              (d.nodeInfos n).candidates = some c →
            ((g.states c.item).applied || origin.ancestors.contains c.item) = true ∧
            c ∈ (d.nodeInfos n).candidates ∧
            ∀ c' ∈ (d.nodeInfos n).candidates,
              ((g.states c'.item).applied || origin.ancestors.contains c'.item) = true →
              c' = c ∨ candLt c' c = true))) := by
  constructor
  · intro hnone
    simp [globalApply, hnone]
  · intro origin horigin happF terminal
    have hga : globalApply g d h terminal
        = .ok { g with states := fun it =>
              if (relevantItems (fun it => (g.states it).applied) origin).contains it
              then { g.states it with applied := true } else g.states it }
            (devicesApply (fun it => (g.states it).applied) origin d)
            origin.ancestors := by
      simp only [globalApply, horigin]
      rw [if_neg (by rw [happF]; simp)]
    refine ⟨by rw [hga]; rfl, ?_, by rw [hga]; rfl, ?_, ?_⟩
    · intro it
      rw [hga]
      simp only [ApplyResult.appliedAt, Option.some.injEq]
      by_cases hrel :
          (relevantItems (fun it => (g.states it).applied) origin).contains it = true
      · rw [if_pos hrel]
        have hmem := (contains_iff_mem _ _).mp hrel
        rw [relevantItems, List.mem_filter] at hmem
        rw [(contains_iff_mem _ _).mpr hmem.1]
        simp
      · rw [if_neg hrel]
        have hrelF : (relevantItems (fun it => (g.states it).applied) origin).contains it
            = false := by
          rwa [Bool.not_eq_true] at hrel
        have hq := qual_or_ancestors (fun it => (g.states it).applied) origin it
        rw [hrelF, Bool.or_false] at hq
        exact hq
    · intro n hn
      rw [hga]
      simp only [ApplyResult.nodeInfoAt, Option.some.injEq]
      rw [devicesApply_nodeInfos, if_neg hn]
    · intro n hn
      constructor
      · rw [hga]
        simp only [ApplyResult.nodeInfoAt, Option.some.injEq]
        rw [devicesApply_nodeInfos, if_pos hn]
      · intro hsort c hc
        obtain ⟨h1, h2, h3⟩ := (selectNewCandidate_spec _ _ _ hsort).1 c hc
        refine ⟨?_, h2, ?_⟩
        · rw [← qual_or_ancestors (fun it => (g.states it).applied) origin c.item]
          exact h1
        · intro c' hc' hq
          refine h3 c' hc' ?_
          rw [qual_or_ancestors (fun it => (g.states it).applied) origin c'.item]
          exact hq

/-- A one-item manager state for the C2 witness. -/
def c2G : GState :=
  { registry := [(hdlA, itemA)]
    states := fun _ => { entries := [("devices", none)] } }

/-- Witness for C2 at a concrete one-item manager state. -/
theorem C2_global_apply_witness :
    (globalApply c2G d0 hdlA false).awaited = some [itemA] ∧
    (globalApply c2G d0 hdlA false).appliedAt itemA = some true :=
  ⟨((C2_global_apply c2G d0 hdlA).2 itemA (by decide) (by decide) false).1,
   ((C2_global_apply c2G d0 hdlA).2 itemA (by decide) (by decide) false).2.1 itemA⟩

end Automancer
